import Mathlib

/-!
# Verification of the Bupget bank-sync core

A shallow embedding, in Lean 4, of the reconciliation, aggregation, retry,
error-classification and webhook-verification code of the Bupget repository,
together with theorems settling the specification claims about that code.

Conventions of the embedding:
* The relational datastore is a `DB` record holding lists of rows; SQLAlchemy
  `query.filter_by(...).first()` becomes `List.find?`, mutation of a fetched ORM
  object becomes `updateFirst`, `session.delete` becomes `List.eraseP`, and
  `session.add` appends to the row list.  Primary keys are `Nat` and are unique
  in any datastore-produced state (SQL autoincrement); `id` truthiness checks in
  the Python coincide with `Option.isSome` / key presence because autoincrement
  ids are positive.
* Dates are days since a fixed Monday epoch (`Int`), so Python's
  `date.weekday()` is `date % 7` and the Monday of a week is `date - date % 7`.
  `datetime.utcnow()` timestamps are abstract `Nat` ticks (`DB.now`), and the
  current date is `DB.today`.
* Decimal / float amounts are `Rat` (exact, as the claims are about algebraic
  identities, not rounding).
* Raw JSON fields that the Python reads with `.get` are `Option`s; fields that
  are parsed with a fallback are small inductives recording
  missing / unparsable / parsed, mirroring the `try/except` structure.
* Python truthiness on strings (`if not tx_id:`) is `strTruthy`.
-/

namespace Bupget

/-- Python truthiness of an optional string: `None` and `""` are falsy. -/
def strTruthy : Option String → Bool
  | none => false
  | some s => s ≠ ""

/-- Case-sensitive substring containment on lists (Python `needle in hay`),
written out so that no library `isInfixOf` variant is assumed. -/
def infixAux [BEq α] (needle : List α) : List α → Bool
  | [] => needle.isEmpty
  | a :: t => needle.isPrefixOf (a :: t) || infixAux needle t

/-- `strContains hay needle`: does `hay` contain `needle` as a substring? -/
def strContains (hay needle : String) : Bool :=
  infixAux needle.toList hay.toList

/-- ASCII lower-casing of one character. -/
def lowerChar (c : Char) : Char :=
  if 65 ≤ c.toNat ∧ c.toNat ≤ 90 then Char.ofNat (c.toNat + 32) else c

/-- Lower-casing (Python `str.lower()` / the case folding of SQL `ILIKE`),
on the ASCII alphabet the keyword table and the tests use. -/
def strLower (s : String) : String := String.mk (s.toList.map lowerChar)

/-- Replace the first element of a list satisfying `p` by its image under `f`:
the embedding of mutating the ORM object returned by `.first()`. -/
def updateFirst (p : α → Bool) (f : α → α) : List α → List α
  | [] => []
  | x :: xs => if p x then f x :: xs else x :: updateFirst p f xs

/-- A raw JSON timestamp field (`attributes.get('createdAt')` plus the
`datetime.fromisoformat` attempt): absent (or empty/falsy), present but
unparsable, or parsing to a calendar date. -/
inductive RawTimestamp where
  | missing
  | malformed
  | value (d : Int)
deriving DecidableEq, Repr

/-- A raw JSON monetary value (`attributes.get('amount', {}).get('value', '0')`
plus the `float(...)` attempt): dict or key absent (defaulting to `'0'`),
present but unparsable, or parsing to a number. -/
inductive RawAmount where
  | missing
  | malformed
  | num (q : Rat)
deriving DecidableEq, Repr

/-- Source of a transaction (`app/models/transaction.py`, `TransactionSource`). -/
inductive TransactionSource where
  | manual
  | up_bank
  | recurring
deriving DecidableEq, Repr

/-- Account type enum (`app/models/account.py`). -/
inductive AccountType where
  | checking
  | savings
  | credit
  | loan
  | investment
deriving DecidableEq, Repr

/-- Account source enum (`app/models/account.py`). -/
inductive AccountSource where
  | manual
  | up_bank
deriving DecidableEq, Repr

/-- A row of the `transactions` table (`app/models/transaction.py`,
`Transaction`). -/
structure Transaction where
  id : Nat
  external_id : Option String
  date : Int
  amount : Rat
  description : String
  is_extra : Bool
  source : TransactionSource
  recurring_expense_id : Option Nat := none
  category_id : Option Nat
  user_id : Nat
  account_id : Option Nat
  created_at : Nat
  updated_at : Nat
  notes : Option String := none
deriving DecidableEq, Repr

/-- `Transaction.week_start_date`: the Monday on or before the transaction's
date (`date - timedelta(days=date.weekday())`). -/
def Transaction.week_start_date (t : Transaction) : Int :=
  t.date - t.date % 7

/-- A row of the `accounts` table (`app/models/account.py`, `Account`);
credit-specific optional columns that no claim touches are omitted. -/
structure Account where
  id : Nat
  external_id : Option String
  name : String
  type : AccountType
  source : AccountSource
  balance : Rat
  currency : String
  user_id : Nat
  created_at : Nat
  updated_at : Nat
  last_synced : Option Nat
deriving DecidableEq, Repr

/-- A row of the `account_balance_history` table (`app/models/account.py`,
`AccountBalanceHistory`). -/
structure AccountBalanceHistory where
  account_id : Nat
  date : Int
  balance : Rat
deriving DecidableEq, Repr

/-- A row of the `transaction_categories` table (`app/models/transaction.py`,
`TransactionCategory`); display-only columns (color, icon) omitted. -/
structure TransactionCategory where
  id : Nat
  name : String
  user_id : Nat
deriving DecidableEq, Repr

/-- A row of the `weekly_summaries` table (`app/models/transaction.py`,
`WeeklySummary`).  `category_totals` is the JSON dict, kept as the
insertion-ordered association list the Python loop builds. -/
structure WeeklySummary where
  id : Nat
  week_start_date : Int
  user_id : Nat
  total_amount : Rat
  total_expenses : Rat
  total_income : Rat
  total_extras : Rat
  category_totals : List (Nat × Rat)
  calculated_at : Nat
deriving DecidableEq, Repr

/-- The datastore: one list per table, the autoincrement counters, and the
ambient clock (`utcnow()` tick `now`, current date `today`). -/
structure DB where
  txs : List Transaction
  accounts : List Account
  categories : List TransactionCategory
  summaries : List WeeklySummary
  history : List AccountBalanceHistory
  next_tx_id : Nat
  next_account_id : Nat
  next_category_id : Nat
  next_summary_id : Nat
  now : Nat
  today : Int
deriving DecidableEq, Repr

/-! ## Categorization heuristic
(`app/services/transaction_service.py`, `suggest_category_for_transaction`,
lines 452-537). -/

/-- The ordered keyword table (`category_patterns`, lines 467-496).  Every
pattern in the source is a literal (no regex metacharacters), so
`re.search(pattern, description, re.IGNORECASE)` on the lower-cased
description is substring containment. -/
def category_patterns : List (String × List String) :=
  [("groceries",
     ["woolworths", "coles", "aldi", "iga", "foodland", "grocery",
      "supermarket", "fruit", "vegetable"]),
   ("dining out",
     ["cafe", "restaurant", "uber eats", "menulog", "doordash",
      "coffee", "mcdonald", "hungry jack", "kfc"]),
   ("transport",
     ["uber", "lyft", "taxi", "train", "bus", "transport", "fuel",
      "petrol", "gasoline", "parking", "toll"]),
   ("utilities",
     ["water", "electricity", "gas", "power", "energy", "internet",
      "phone", "mobile", "utility"]),
   ("entertainment",
     ["movie", "cinema", "netflix", "spotify", "disney", "amazon prime",
      "entertainment", "game", "playstation", "xbox", "nintendo"]),
   ("health",
     ["pharmacy", "doctor", "hospital", "medical", "dental", "gym",
      "fitness", "health"]),
   ("shopping",
     ["amazon", "ebay", "kmart", "target", "big w", "bunnings",
      "shopping", "retail", "clothing", "apparel"])]

/-- One comparison step of `mostRecent`. -/
def mostRecentStep (best : Option Transaction) (t : Transaction) :
    Option Transaction :=
  match best with
  | none => some t
  | some b => if t.created_at > b.created_at then some t else some b

/-- Pick the element with the greatest `created_at` (first such element on
ties): the embedding of `order_by(Transaction.created_at.desc()).first()`. -/
def mostRecent (l : List Transaction) : Option Transaction :=
  l.foldl mostRecentStep none

/-- Step 1 of the heuristic (lines 498-511): the most recently created
transaction of the user that already has a category and whose description
matches `ILIKE '%description%'`, i.e. whose description contains the new
description case-insensitively. -/
def similarCategorized (db : DB) (user_id : Nat) (description : String) :
    Option Transaction :=
  mostRecent (db.txs.filter fun t =>
    t.user_id == user_id && t.category_id.isSome &&
    strContains (strLower t.description) (strLower description))

/-- The query-then-create block inside the keyword step (lines 518-534). -/
def getOrCreateCategory (db : DB) (name : String) (user_id : Nat) :
    Nat × DB :=
  match db.categories.find? (fun c => c.name == name && c.user_id == user_id) with
  | some category => (category.id, db)
  | none =>
    let new_category : TransactionCategory :=
      { id := db.next_category_id, name := name, user_id := user_id }
    (new_category.id,
     { db with categories := db.categories ++ [new_category],
               next_category_id := db.next_category_id + 1 })

/-- The keyword loop (lines 514-534) over the lower-cased description; the
first matching category wins and is got-or-created for the user. -/
def keywordSearchAux (db : DB) (user_id : Nat) (ldesc : String) :
    List (String × List String) → Option Nat × DB
  | [] => (none, db)
  | (category_name, patterns) :: rest =>
    if patterns.any (fun pattern => strContains ldesc pattern) then
      let r := getOrCreateCategory db category_name user_id
      (some r.1, r.2)
    else keywordSearchAux db user_id ldesc rest

/-- `suggest_category_for_transaction(description, user_id)`: step 1 only runs
when `user_id` is truthy, and a keyword match only returns a category when
`user_id` is truthy (otherwise the loop falls through and `None` is
returned with the store untouched). -/
def suggest_category_for_transaction (db : DB) (description : String)
    (user_id : Option Nat) : Option Nat × DB :=
  let ldesc := strLower description
  match user_id with
  | some uid =>
    match similarCategorized db uid description with
    | some similar_transaction => (similar_transaction.category_id, db)
    | none => keywordSearchAux db uid ldesc category_patterns
  | none => (none, db)

/-! ## Weekly summary recompute
(`app/models/transaction.py`, `WeeklySummary.calculate_for_week`,
lines 225-284). -/

/-- Membership of a transaction in the Monday-to-Sunday week of a user
(the query filter of lines 241-245). -/
def txInWeek (user_id : Nat) (start_date : Int) (t : Transaction) : Bool :=
  t.user_id == user_id && decide (start_date ≤ t.date) &&
    decide (t.date ≤ start_date + 6)

/-- Key lookup in the association-list encoding of a Python dict. -/
def dictLookup (k : Nat) : List (Nat × Rat) → Option Rat
  | [] => none
  | (a, v) :: rest => if a = k then some v else dictLookup k rest

/-- In-place increment of the (unique) entry with key `k`
(`category_totals[category_id] += ...`). -/
def dictIncr (k : Nat) (amt : Rat) : List (Nat × Rat) → List (Nat × Rat)
  | [] => []
  | (a, v) :: rest =>
    if a = k then (a, v + amt) :: rest else (a, v) :: dictIncr k amt rest

/-- One step of the `category_totals` dict-building loop (lines 255-260):
transactions without a category are skipped, a present key is incremented,
a new key is appended. -/
def catTotalsStep (acc : List (Nat × Rat)) (t : Transaction) :
    List (Nat × Rat) :=
  match t.category_id with
  | none => acc
  | some category_id =>
    if (dictLookup category_id acc).isSome then
      dictIncr category_id t.amount acc
    else acc ++ [(category_id, t.amount)]

/-- The full `category_totals` dict of a week's transaction list. -/
def buildCategoryTotals (transactions : List Transaction) : List (Nat × Rat) :=
  transactions.foldl catTotalsStep []

/-- `WeeklySummary.calculate_for_week(user_id, start_date)`: read every
transaction of the week, recompute all totals from scratch, and overwrite
(or create) the unique summary row for `(user_id, start_date)`. -/
def calculate_for_week (db : DB) (user_id : Nat) (start_date : Int) : DB :=
  let transactions := db.txs.filter (txInWeek user_id start_date)
  let total_amount := (transactions.map (·.amount)).sum
  let total_expenses :=
    ((transactions.filter fun t => decide (t.amount < 0)).map (·.amount)).sum
  let total_income :=
    ((transactions.filter fun t => decide (t.amount > 0)).map (·.amount)).sum
  let total_extras :=
    ((transactions.filter fun t => t.is_extra).map (·.amount)).sum
  let category_totals := buildCategoryTotals transactions
  match db.summaries.find?
      (fun s => s.user_id == user_id && s.week_start_date == start_date) with
  | some _ =>
    { db with
      summaries := updateFirst
        (fun s => s.user_id == user_id && s.week_start_date == start_date)
        (fun s =>
          { s with total_amount := total_amount,
                   total_expenses := total_expenses,
                   total_income := total_income,
                   total_extras := total_extras,
                   category_totals := category_totals,
                   calculated_at := db.now })
        db.summaries }
  | none =>
    { db with
      summaries := db.summaries ++
        [{ id := db.next_summary_id, week_start_date := start_date,
           user_id := user_id, total_amount := total_amount,
           total_expenses := total_expenses, total_income := total_income,
           total_extras := total_extras, category_totals := category_totals,
           calculated_at := db.now }],
      next_summary_id := db.next_summary_id + 1 }

/-- The stored summary row for `(user_id, start_date)`, if any. -/
def findSummary (db : DB) (user_id : Nat) (start_date : Int) :
    Option WeeklySummary :=
  db.summaries.find?
    (fun s => s.user_id == user_id && s.week_start_date == start_date)

/-! ## Record mapping and reconciliation of a single transaction
(`app/api/webhooks.py`, `process_up_bank_transaction`, lines 296-445;
the mapping block, lines 313-361, is shared verbatim with
`app/api/up_bank.py` `UpBankAPI._process_transaction` lines 555-598 and
`app/services/transaction_service.py` `process_upbank_transaction`
lines 655-716). -/

/-- The raw `attributes` object of an upstream transaction record. -/
structure TxAttributes where
  description : Option String
  rawText : Option String
  createdAt : RawTimestamp
  amountValue : RawAmount
deriving DecidableEq, Repr

/-- A raw upstream transaction record: its id, attributes, and the account id
under `relationships.account.data.id` (absent when the `data` dict is missing
or has no `id` key). -/
structure TxPayload where
  id : Option String
  attributes : TxAttributes
  accountExt : Option String
deriving DecidableEq, Repr

/-- Description mapping (lines 321-326): default `'Unknown transaction'`,
overridden by a truthy `rawText`. -/
def mappedDescription (a : TxAttributes) : String :=
  let description := a.description.getD "Unknown transaction"
  match a.rawText with
  | some raw => if raw ≠ "" then raw else description
  | none => description

/-- Date mapping (lines 328-337): a missing (falsy) `createdAt` makes the
record fail (`none`); an unparsable one falls back to the current date. -/
def mappedDate (a : TxAttributes) (today : Int) : Option Int :=
  match a.createdAt with
  | .missing => none
  | .malformed => some today
  | .value d => some d

/-- Amount mapping (lines 339-346): missing or unparsable values become 0. -/
def mappedAmount (a : TxAttributes) : Rat :=
  match a.amountValue with
  | .missing => 0
  | .malformed => 0
  | .num q => q

/-- Account resolution (lines 348-361): look the external account id up in the
local accounts of the user, keeping `None` when absent. -/
def resolveAccountId (db : DB) (user_id : Nat) (accountExt : Option String) :
    Option Nat :=
  match accountExt with
  | none => none
  | some external_account_id =>
    (db.accounts.find? fun a =>
      a.external_id == some external_account_id && a.user_id == user_id).map
      (·.id)

/-- The lookup key of the idempotent upsert: `(external_id, user_id)`
(lines 366-369). -/
def txKey (tx_id : String) (user_id : Nat) (t : Transaction) : Bool :=
  t.external_id == some tx_id && t.user_id == user_id

/-- The categorization block of the update path (lines 379-384): when the
existing transaction has no category yet, run the heuristic against the store
(which already holds the field updates of `t1`) and, if it suggests one,
write it to the row.  Returns the row as finally stored and the store. -/
def updateCategoryStep (dbU : DB) (t1 : Transaction) (tx_id : String)
    (user_id : Nat) (description : String) (had_category : Bool) :
    Transaction × DB :=
  if had_category then (t1, dbU)
  else
    let r := suggest_category_for_transaction dbU description (some user_id)
    match r.1 with
    | some category_id =>
      ({ t1 with category_id := some category_id },
       { r.2 with
         txs := updateFirst (txKey tx_id user_id)
           (fun t => { t with category_id := some category_id }) r.2.txs })
    | none => (t1, r.2)

/-- `process_up_bank_transaction(transaction_data, user_id)` of
`app/api/webhooks.py`: map the record, decide create vs. update on
`(external_id, user_id)`, persist, adjust the linked account
(balance only on create; the update path only touches `updated_at`),
and recompute the week's summary.  Returns the new store and the
function's boolean result. -/
def process_up_bank_transaction (db : DB) (transaction_data : TxPayload)
    (user_id : Nat) : DB × Bool :=
  if ¬ strTruthy transaction_data.id then (db, false)
  else
    let tx_id := transaction_data.id.getD ""
    let description := mappedDescription transaction_data.attributes
    match mappedDate transaction_data.attributes db.today with
    | none => (db, false)
    | some tx_date =>
      let amount := mappedAmount transaction_data.attributes
      let account_id := resolveAccountId db user_id transaction_data.accountExt
      match db.txs.find? (txKey tx_id user_id) with
      | some existing_tx =>
        -- update path (lines 371-400)
        let t1 : Transaction :=
          { existing_tx with
            description := description, amount := amount, date := tx_date,
            account_id := account_id, updated_at := db.now }
        let dbU := { db with txs := updateFirst (txKey tx_id user_id) (fun _ => t1) db.txs }
        let step := updateCategoryStep dbU t1 tx_id user_id description
          existing_tx.category_id.isSome
        let dbA :=
          match step.1.account_id with
          | some aid =>
            { step.2 with
              accounts := updateFirst (fun a => a.id == aid)
                (fun a => { a with updated_at := db.now }) step.2.accounts }
          | none => step.2
        (calculate_for_week dbA user_id step.1.week_start_date, true)
      | none =>
        -- create path (lines 401-435)
        let r := suggest_category_for_transaction db description (some user_id)
        let new_tx : Transaction :=
          { id := r.2.next_tx_id, external_id := some tx_id, date := tx_date,
            description := description, amount := amount, is_extra := false,
            source := .up_bank, category_id := r.1, user_id := user_id,
            account_id := account_id, created_at := db.now, updated_at := db.now }
        let dbN :=
          { r.2 with txs := r.2.txs ++ [new_tx], next_tx_id := r.2.next_tx_id + 1 }
        let dbA :=
          match account_id with
          | some aid =>
            { dbN with
              accounts := updateFirst (fun a => a.id == aid)
                (fun a => { a with balance := a.balance + amount,
                                   updated_at := db.now }) dbN.accounts }
          | none => dbN
        (calculate_for_week dbA user_id new_tx.week_start_date, true)

/-! ## Transaction deletion
(`app/services/transaction_service.py`, `delete_transaction`, lines 364-398). -/

/-- `delete_transaction(transaction_id, user_id)`: capture the week start,
reverse the linked account's balance, delete the row, recompute the week. -/
def delete_transaction (db : DB) (transaction_id : Nat) (user_id : Nat) :
    DB × Bool :=
  match db.txs.find? (fun t => t.id == transaction_id && t.user_id == user_id) with
  | none => (db, false)
  | some transaction =>
    let week_start_date := transaction.week_start_date
    let db1 :=
      match transaction.account_id with
      | some aid =>
        { db with
          accounts := updateFirst (fun a => a.id == aid)
            (fun a => { a with balance := a.balance - transaction.amount,
                               updated_at := db.now }) db.accounts }
      | none => db
    let db2 :=
      { db1 with
        txs := db1.txs.eraseP
          (fun t => t.id == transaction_id && t.user_id == user_id) }
    (calculate_for_week db2 user_id week_start_date, true)

/-! ## Account reconciliation
(`app/services/bank_service.py`, `process_account` lines 104-193 and
`record_balance_history` lines 196-235). -/

/-- The raw upstream account record fields `process_account` reads. -/
structure AccountPayload where
  id : Option String
  displayName : Option String
  accountType : Option String
  balanceValue : RawAmount
  currencyCode : Option String
deriving DecidableEq, Repr

/-- The explicit account-type lookup table (lines 131-136):
`{'SAVER': SAVINGS, 'TRANSACTIONAL': CHECKING}.get(s, CHECKING)`. -/
def account_type_mapping (s : String) : AccountType :=
  if s = "SAVER" then .savings
  else if s = "TRANSACTIONAL" then .checking
  else .checking

/-- `record_balance_history(account_id, balance)`: one snapshot per
`(account, day)`, overwriting a same-day record. -/
def record_balance_history (db : DB) (account_id : Nat) (balance : Rat) :
    DB × Bool :=
  match db.history.find?
      (fun h => h.account_id == account_id && h.date == db.today) with
  | some _ =>
    ({ db with
       history := updateFirst
         (fun h => h.account_id == account_id && h.date == db.today)
         (fun h => { h with balance := balance }) db.history }, true)
  | none =>
    ({ db with
       history := db.history ++
         [{ account_id := account_id, date := db.today, balance := balance }] },
     true)

/-- `process_account(user_id, account_data)`: upsert on
`(external_id, user_id)`.  The update path assigns `account.balance = balance`
first and only then tests `account.balance != balance` — the embedding keeps
that order, so the history branch compares the new balance with itself. -/
def process_account (db : DB) (user_id : Nat) (account_data : AccountPayload) :
    DB × Option String :=
  if ¬ strTruthy account_data.id then (db, none)
  else
    let account_ext := account_data.id.getD ""
    let display_name := account_data.displayName.getD "Unknown Account"
    let account_type :=
      account_type_mapping (account_data.accountType.getD "").toUpper
    let balance :=
      match account_data.balanceValue with
      | .missing => 0
      | .malformed => 0
      | .num q => q
    let currency_code := account_data.currencyCode.getD "AUD"
    match db.accounts.find?
        (fun a => a.external_id == some account_ext && a.user_id == user_id) with
    | some account =>
      let updated : Account :=
        { account with
          name := display_name, type := account_type, balance := balance,
          currency := currency_code, updated_at := db.now,
          last_synced := some db.now }
      let db1 :=
        { db with
          accounts := updateFirst
            (fun a => a.external_id == some account_ext && a.user_id == user_id)
            (fun _ => updated) db.accounts }
      -- `if account.balance != balance:` — evaluated after the assignment
      let db2 :=
        if updated.balance ≠ balance then
          (record_balance_history db1 account.id balance).1
        else db1
      (db2, some "updated")
    | none =>
      let account : Account :=
        { id := db.next_account_id, external_id := some account_ext,
          name := display_name, type := account_type, source := .up_bank,
          balance := balance, currency := currency_code, user_id := user_id,
          created_at := db.now, updated_at := db.now, last_synced := some db.now }
      let db1 :=
        { db with accounts := db.accounts ++ [account],
                  next_account_id := db.next_account_id + 1 }
      let db2 := (record_balance_history db1 account.id balance).1
      (db2, some "created")

/-! ## Retry executor
(`app/utils/retry.py`, `retry`, lines 19-88).

The wrapped operation is a script `f : Nat → Except ε α` giving the outcome of
each successive invocation; `retryable` is membership in the decorator's
`exceptions` list.  The outcome records the returned value or the propagated
error, the number of invocations, and the number of backoff sleeps.  Sleep
durations (`delay`, `backoff`, the random jitter) affect no claim and are not
modelled, only the fact of sleeping. -/

deriving instance DecidableEq for Except

/-- Result of running a retried operation. -/
structure RetryOutcome (ε α : Type) where
  result : Except ε α
  calls : Nat
  sleeps : Nat
deriving DecidableEq, Repr

/-- The `while mtries > 1` loop plus the final uncaught attempt (lines 61-84):
with `mtries ≤ 1` the loop body never runs and the operation is invoked once
outside any `try`; inside the loop a caught retryable error sleeps and
decrements `mtries`, any other error propagates at once. -/
def retryGo (f : Nat → Except ε α) (retryable : ε → Bool) :
    Nat → Nat → RetryOutcome ε α
  | attempt, 0 => ⟨f attempt, 1, 0⟩
  | attempt, 1 => ⟨f attempt, 1, 0⟩
  | attempt, mtries + 2 =>
    match f attempt with
    | .ok a => ⟨.ok a, 1, 0⟩
    | .error e =>
      if retryable e then
        let r := retryGo f retryable (attempt + 1) (mtries + 1)
        ⟨r.result, r.calls + 1, r.sleeps + 1⟩
      else ⟨.error e, 1, 0⟩

/-- The retry decorator applied to an operation, with `tries` attempts. -/
def retry (f : Nat → Except ε α) (retryable : ε → Bool) (tries : Nat) :
    RetryOutcome ε α :=
  retryGo f retryable 0 tries

/-! ## HTTP error classification
(`app/api/up_bank.py`, `UpBankAPI._handle_error_response`, lines 161-216). -/

/-- The part of an error response the classifier reads: the status code and
the `Retry-After` header (`none` = absent, `some none` = present but not
parsable by `int(...)`, `some (some n)` = parses to `n`).  The response body
only feeds log/message text and is not modelled. -/
structure ApiResponse where
  status_code : Nat
  retryAfterHeader : Option (Option Int)
deriving DecidableEq, Repr

/-- The exception taxonomy raised by `_handle_error_response`
(`UpBankAuthError`, `UpBankRateLimitError`, `UpBankAPIError`); the echoed
response object is dropped, messages are kept. -/
inductive UpBankException where
  | authError (message : String)
  | rateLimitError (message : String) (retry_after : Option Int)
      (status_code : Nat)
  | apiError (message : String) (status_code : Nat)
deriving DecidableEq, Repr

/-- The `retry_after` carried by a rate-limit exception, if the exception is
one. -/
def UpBankException.rateLimitRetryAfter : UpBankException → Option Int
  | .rateLimitError _ retry_after _ => retry_after
  | _ => none

/-- `_handle_error_response(response)`: 401/403 → auth error, 404 and other
statuses → API error, 429 → rate-limit error carrying `retry_after`, which is
`int(headers['Retry-After'])` when that parses and stays `None` when the
header is absent or unparsable (lines 199-213). -/
def handle_error_response (response : ApiResponse) : UpBankException :=
  if response.status_code = 401 then
    .authError "Authentication failed: Invalid or expired token"
  else if response.status_code = 403 then
    .authError "Permission denied: Token does not have required permissions"
  else if response.status_code = 404 then
    .apiError "Resource not found" 404
  else if response.status_code = 429 then
    let retry_after : Option Int :=
      match response.retryAfterHeader with
      | some (some n) => some n
      | _ => none
    .rateLimitError "Rate limit exceeded: Too many requests" retry_after 429
  else .apiError "API error" response.status_code

/-! ## Webhook signature verification
(`app/api/webhooks.py`, `verify_webhook_signature`, lines 22-50).

The function computes `hmac.new(secret.encode('utf-8'), raw_body,
hashlib.sha256).hexdigest()` and compares it to the provided signature with
the constant-time `hmac.compare_digest`.  The stdlib HMAC-SHA256 is embedded
concretely below (FIPS 180-4 / RFC 2104) over byte lists; `compare_digest`
is equality of the two strings (the timing property is not observable in a
functional embedding). -/

/-- 32-bit right rotation on a word already reduced mod `2 ^ 32`. -/
def rotr32 (n x : Nat) : Nat :=
  ((x >>> n) ||| (x <<< (32 - n))) % 2 ^ 32

/-- SHA-256 small sigma 0. -/
def ssig0 (x : Nat) : Nat := rotr32 7 x ^^^ rotr32 18 x ^^^ (x >>> 3)

/-- SHA-256 small sigma 1. -/
def ssig1 (x : Nat) : Nat := rotr32 17 x ^^^ rotr32 19 x ^^^ (x >>> 10)

/-- SHA-256 big sigma 0. -/
def bsig0 (x : Nat) : Nat := rotr32 2 x ^^^ rotr32 13 x ^^^ rotr32 22 x

/-- SHA-256 big sigma 1. -/
def bsig1 (x : Nat) : Nat := rotr32 6 x ^^^ rotr32 11 x ^^^ rotr32 25 x

/-- SHA-256 choice function. -/
def chFn (x y z : Nat) : Nat := (x &&& y) ^^^ ((x ^^^ 0xffffffff) &&& z)

/-- SHA-256 majority function. -/
def majFn (x y z : Nat) : Nat := (x &&& y) ^^^ (x &&& z) ^^^ (y &&& z)

/-- The 64 SHA-256 round constants. -/
def sha256K : List Nat :=
  [1116352408, 1899447441, 3049323471, 3921009573,
   961987163, 1508970993, 2453635748, 2870763221,
   3624381080, 310598401, 607225278, 1426881987,
   1925078388, 2162078206, 2614888103, 3248222580,
   3835390401, 4022224774, 264347078, 604807628,
   770255983, 1249150122, 1555081692, 1996064986,
   2554220882, 2821834349, 2952996808, 3210313671,
   3336571891, 3584528711, 113926993, 338241895,
   666307205, 773529912, 1294757372, 1396182291,
   1695183700, 1986661051, 2177026350, 2456956037,
   2730485921, 2820302411, 3259730800, 3345764771,
   3516065817, 3600352804, 4094571909, 275423344,
   430227734, 506948616, 659060556, 883997877,
   958139571, 1322822218, 1537002063, 1747873779,
   1955562222, 2024104815, 2227730452, 2361852424,
   2428436474, 2756734187, 3204031479, 3329325298]

/-- The SHA-256 working state (eight 32-bit words). -/
structure Hash8 where
  a : Nat
  b : Nat
  c : Nat
  d : Nat
  e : Nat
  f : Nat
  g : Nat
  h : Nat
deriving DecidableEq, Repr

/-- The SHA-256 initial hash value. -/
def sha256Init : Hash8 :=
  ⟨1779033703, 3144134277, 1013904242, 2773480762, 1359893119, 2600822924, 528734635, 1541459225⟩

/-- Big-endian 32-bit words of a byte list (length a multiple of 4). -/
def toWords : List Nat → List Nat
  | b0 :: b1 :: b2 :: b3 :: rest =>
    (((b0 <<< 24) ||| (b1 <<< 16) ||| (b2 <<< 8) ||| b3) % 2 ^ 32) ::
      toWords rest
  | _ => []

/-- Big-endian 8-byte encoding of the 64-bit message bit length. -/
def lenBytes64 (n : Nat) : List Nat :=
  [(n >>> 56) % 256, (n >>> 48) % 256, (n >>> 40) % 256, (n >>> 32) % 256,
   (n >>> 24) % 256, (n >>> 16) % 256, (n >>> 8) % 256, n % 256]

/-- SHA-256 padding: `0x80`, zeros to 56 mod 64, then the bit length. -/
def padMessage (msg : List Nat) : List Nat :=
  msg ++ [0x80] ++ List.replicate ((119 - msg.length % 64) % 64) 0 ++
    lenBytes64 (msg.length * 8)

/-- Extend a 16-word block schedule by `fuel` further words. -/
def extendW (w : List Nat) : Nat → List Nat
  | 0 => w
  | fuel + 1 =>
    let n := w.length
    let wt := (ssig1 (w.getD (n - 2) 0) + w.getD (n - 7) 0 +
               ssig0 (w.getD (n - 15) 0) + w.getD (n - 16) 0) % 2 ^ 32
    extendW (w ++ [wt]) fuel

/-- One SHA-256 compression round. -/
def sha256Round (s : Hash8) (kw : Nat × Nat) : Hash8 :=
  let t1 := (s.h + bsig1 s.e + chFn s.e s.f s.g + kw.1 + kw.2) % 2 ^ 32
  let t2 := (bsig0 s.a + majFn s.a s.b s.c) % 2 ^ 32
  ⟨(t1 + t2) % 2 ^ 32, s.a, s.b, s.c, (s.d + t1) % 2 ^ 32, s.e, s.f, s.g⟩

/-- Compress one 64-byte block into the running hash. -/
def sha256Block (h0 : Hash8) (block : List Nat) : Hash8 :=
  let w := extendW (toWords block) 48
  let s := (sha256K.zip w).foldl sha256Round h0
  ⟨(h0.a + s.a) % 2 ^ 32, (h0.b + s.b) % 2 ^ 32, (h0.c + s.c) % 2 ^ 32,
   (h0.d + s.d) % 2 ^ 32, (h0.e + s.e) % 2 ^ 32, (h0.f + s.f) % 2 ^ 32,
   (h0.g + s.g) % 2 ^ 32, (h0.h + s.h) % 2 ^ 32⟩

/-- Split a byte list into 64-byte chunks. -/
def chunks64 (l : List Nat) : List (List Nat) :=
  match l with
  | [] => []
  | a :: t => (a :: t).take 64 :: chunks64 (t.drop 63)
termination_by l.length
decreasing_by
  simp only [List.length_drop, List.length_cons]
  omega

/-- Big-endian bytes of a 32-bit word. -/
def wordBytes (w : Nat) : List Nat :=
  [(w >>> 24) % 256, (w >>> 16) % 256, (w >>> 8) % 256, w % 256]

/-- SHA-256 of a byte list, as a 32-byte digest. -/
def sha256Bytes (msg : List Nat) : List Nat :=
  let h := (chunks64 (padMessage msg)).foldl sha256Block sha256Init
  wordBytes h.a ++ wordBytes h.b ++ wordBytes h.c ++ wordBytes h.d ++
    wordBytes h.e ++ wordBytes h.f ++ wordBytes h.g ++ wordBytes h.h

/-- UTF-8 encoding of one code point. -/
def utf8Bytes (c : Nat) : List Nat :=
  if c < 0x80 then [c]
  else if c < 0x800 then
    [0xC0 ||| (c >>> 6), 0x80 ||| (c &&& 0x3F)]
  else if c < 0x10000 then
    [0xE0 ||| (c >>> 12), 0x80 ||| ((c >>> 6) &&& 0x3F), 0x80 ||| (c &&& 0x3F)]
  else
    [0xF0 ||| (c >>> 18), 0x80 ||| ((c >>> 12) &&& 0x3F),
     0x80 ||| ((c >>> 6) &&& 0x3F), 0x80 ||| (c &&& 0x3F)]

/-- `str.encode('utf-8')` as a byte list. -/
def strToBytes (s : String) : List Nat :=
  s.toList.flatMap fun c => utf8Bytes c.toNat

/-- One lowercase hexadecimal digit. -/
def hexDigit (n : Nat) : Char :=
  if n < 10 then Char.ofNat (48 + n) else Char.ofNat (87 + n)

/-- Lowercase hex string of a byte list (`.hexdigest()`). -/
def bytesToHex (bytes : List Nat) : String :=
  String.mk (bytes.flatMap fun b => [hexDigit (b / 16 % 16), hexDigit (b % 16)])

/-- HMAC-SHA256 (RFC 2104) over byte lists. -/
def hmacSha256 (key msg : List Nat) : List Nat :=
  let k0 := if key.length > 64 then sha256Bytes key else key
  let k := k0 ++ List.replicate (64 - k0.length) 0
  let ipad := k.map fun b => b ^^^ 0x36
  let opad := k.map fun b => b ^^^ 0x5c
  sha256Bytes (opad ++ sha256Bytes (ipad ++ msg))

/-- `hmac.new(secret.encode('utf-8'), body, hashlib.sha256).hexdigest()`. -/
def hmacSha256Hex (secret : String) (body : List Nat) : String :=
  bytesToHex (hmacSha256 (strToBytes secret) body)

/-- `verify_webhook_signature(request_data, signature, webhook_secret)`:
false when the secret or the signature is falsy (missing or empty), else the
constant-time comparison of the computed hex digest with the signature.  The
function is total — the Python `except` branch (also returning false) is
unreachable for string/bytes inputs. -/
def verify_webhook_signature (request_data : List Nat)
    (signature webhook_secret : Option String) : Bool :=
  if !strTruthy webhook_secret || !strTruthy signature then false
  else
    hmacSha256Hex (webhook_secret.getD "") request_data == signature.getD ""

/-! ## Observation functions and auxiliary predicates used by the theorems. -/

/-- The balance of every account, keyed by primary key. -/
def accountBalances (db : DB) : List (Nat × Rat) :=
  db.accounts.map fun a => (a.id, a.balance)

/-- The identifying columns of every account (primary key, external id,
owner), i.e. everything `resolveAccountId` can observe. -/
def accountKeys (db : DB) : List (Nat × Option String × Nat) :=
  db.accounts.map fun a => (a.id, a.external_id, a.user_id)

/-- Two optional summary rows agree on the five computed fields, with the
`category_totals` dicts compared as finite maps (Python `dict` equality
ignores insertion order). -/
def summaryFieldsAgree : Option WeeklySummary → Option WeeklySummary → Prop
  | none, none => True
  | some s1, some s2 =>
    s1.total_amount = s2.total_amount ∧
    s1.total_expenses = s2.total_expenses ∧
    s1.total_income = s2.total_income ∧
    s1.total_extras = s2.total_extras ∧
    ∀ k, dictLookup k s1.category_totals = dictLookup k s2.category_totals
  | _, _ => False

/-- Insert one transaction and recompute its week's summary: the
insert-followed-by-recompute step that every reconciliation path performs
after a transaction create (webhook create path, `save_transaction`). -/
def syncStep (db : DB) (t : Transaction) : DB :=
  calculate_for_week { db with txs := db.txs ++ [t] } t.user_id t.week_start_date

/-- The per-category amount of a transaction list (the value
`category_totals` ends up holding at a present key). -/
def catSum (k : Nat) (transactions : List Transaction) : Rat :=
  ((transactions.filter fun t => decide (t.category_id = some k)).map
    (·.amount)).sum

/-- `db'` differs from `db` at most in `categories` / `next_category_id`:
what the categorization heuristic may touch. -/
def DB.EqExceptCategories (db db' : DB) : Prop :=
  db'.txs = db.txs ∧ db'.accounts = db.accounts ∧
  db'.summaries = db.summaries ∧ db'.history = db.history ∧
  db'.next_tx_id = db.next_tx_id ∧ db'.next_account_id = db.next_account_id ∧
  db'.next_summary_id = db.next_summary_id ∧ db'.now = db.now ∧
  db'.today = db.today

/-! ## Concrete fixtures for witnesses and counterexamples. -/

/-- A linked account fixture. -/
def wAccount : Account :=
  { id := 1, external_id := some "acc-ext-1", name := "Spending",
    type := .checking, source := .up_bank, balance := 100, currency := "AUD",
    user_id := 1, created_at := 0, updated_at := 0, last_synced := none }

/-- A small store with one account and no transactions. -/
def wdb : DB :=
  { txs := [], accounts := [wAccount], categories := [], summaries := [],
    history := [], next_tx_id := 1, next_account_id := 2,
    next_category_id := 1, next_summary_id := 1, now := 50, today := 9 }

/-- An upstream transaction record linked to `wAccount`. -/
def wPayload : TxPayload :=
  { id := some "tx-ext-1",
    attributes := { description := some "Office Rent", rawText := none,
                    createdAt := .value 9, amountValue := .num (-85/2) },
    accountExt := some "acc-ext-1" }

/-- An upstream transaction record whose creation timestamp is absent. -/
def wPayloadNoDate : TxPayload :=
  { id := some "tx-ext-8",
    attributes := { description := some "Mystery", rawText := none,
                    createdAt := .missing, amountValue := .num 10 },
    accountExt := none }

/-- An upstream transaction record whose creation timestamp is present but
unparsable. -/
def wPayloadBadDate : TxPayload :=
  { id := some "tx-ext-9",
    attributes := { description := some "Mystery", rawText := none,
                    createdAt := .malformed, amountValue := .num 10 },
    accountExt := none }

/-- A categorized historical transaction whose description is contained in —
but does not contain — the description of an incoming transaction. -/
def wCoffeeTx : Transaction :=
  { id := 1, external_id := none, date := 3, amount := -6,
    description := "Coffee Amore", is_extra := false, source := .manual,
    category_id := some 5, user_id := 1, account_id := none,
    created_at := 10, updated_at := 10 }

/-- The category of `wCoffeeTx`. -/
def wCoffeeCat : TransactionCategory := { id := 5, name := "Morning", user_id := 1 }

/-- A store holding `wCoffeeTx`. -/
def wdbCoffee : DB :=
  { txs := [wCoffeeTx], accounts := [], categories := [wCoffeeCat],
    summaries := [], history := [], next_tx_id := 2, next_account_id := 1,
    next_category_id := 7, next_summary_id := 1, now := 60, today := 9 }

/-- An upstream account record matching `wAccount` by external id. -/
def wAccountPayload : AccountPayload :=
  { id := some "acc-ext-1", displayName := some "Spending 2",
    accountType := some "TRANSACTIONAL", balanceValue := .num 250,
    currencyCode := some "AUD" }

/-- Two transactions of the same user in the same Monday-to-Sunday week. -/
def wWeekTx1 : Transaction :=
  { id := 101, external_id := none, date := 8, amount := -20,
    description := "A", is_extra := false, source := .manual,
    category_id := some 3, user_id := 1, account_id := none,
    created_at := 1, updated_at := 1 }

/-- Second member of the same week as `wWeekTx1`. -/
def wWeekTx2 : Transaction :=
  { id := 102, external_id := none, date := 10, amount := 30,
    description := "B", is_extra := true, source := .manual,
    category_id := some 4, user_id := 1, account_id := none,
    created_at := 2, updated_at := 2 }

/-- A retried operation failing twice, then succeeding on its third call. -/
def wRetryOp : Nat → Except Nat Nat := fun i => if i = 2 then .ok 42 else .error i

/-- A retried operation that fails on every call. -/
def wRetryFailOp : Nat → Except Nat Nat := fun i => .error i

/-! # Theorems -/

/-! ## Retry executor lemmas -/

/-- A run whose first `k` invocations fail retryably and whose `(k+1)`-st
succeeds returns the success after `k + 1` calls and `k` sleeps. -/
theorem retryGo_ok {ε α : Type} (f : Nat → Except ε α) (r : ε → Bool) (a : α)
    (errs : Nat → ε) :
    ∀ (k attempt : Nat),
      (∀ i, i < k → f (attempt + i) = .error (errs (attempt + i))) →
      (∀ i, i < k → r (errs (attempt + i)) = true) →
      f (attempt + k) = .ok a →
      retryGo f r attempt (k + 1) = ⟨.ok a, k + 1, k⟩ := by
  intro k
  induction k with
  | zero =>
    intro attempt _ _ hok
    simp only [Nat.add_zero] at hok
    simp [retryGo, hok]
  | succ k ih =>
    intro attempt hfail hretry hok
    have h0 : f attempt = .error (errs attempt) := by
      simpa using hfail 0 (Nat.succ_pos k)
    have h0r : r (errs attempt) = true := by
      simpa using hretry 0 (Nat.succ_pos k)
    have hrec : retryGo f r (attempt + 1) (k + 1) = ⟨.ok a, k + 1, k⟩ := by
      apply ih (attempt + 1)
      · intro i hi
        have e : attempt + 1 + i = attempt + (i + 1) := by omega
        rw [e]
        exact hfail (i + 1) (by omega)
      · intro i hi
        have e : attempt + 1 + i = attempt + (i + 1) := by omega
        rw [e]
        exact hretry (i + 1) (by omega)
      · have : attempt + (k + 1) = attempt + 1 + k := by omega
        rw [← this]
        exact hok
    show retryGo f r attempt (k + 1 + 1) = ⟨.ok a, k + 1 + 1, k + 1⟩
    simp only [retryGo, h0, h0r, if_true, hrec]

/-- A run whose every invocation fails retryably propagates the error of the
last attempt after `k + 1` calls and `k` sleeps. -/
theorem retryGo_allfail {ε α : Type} (f : Nat → Except ε α) (r : ε → Bool)
    (errs : Nat → ε)
    (hfail : ∀ i, f i = .error (errs i))
    (hretry : ∀ i, r (errs i) = true) :
    ∀ (k attempt : Nat),
      retryGo f r attempt (k + 1) = ⟨.error (errs (attempt + k)), k + 1, k⟩ := by
  intro k
  induction k with
  | zero =>
    intro attempt
    simp [retryGo, hfail attempt]
  | succ k ih =>
    intro attempt
    have hrec := ih (attempt + 1)
    show retryGo f r attempt (k + 1 + 1) = _
    simp only [retryGo, hfail attempt, hretry attempt, if_true, hrec]
    have : attempt + 1 + k = attempt + (k + 1) := by omega
    rw [this]

/-- C4: with `tries = N ≥ 1`, an operation that raises a retryable error on
its first `N - 1` invocations and succeeds on the `N`-th returns the success
result after exactly `N` invocations and `N - 1` sleeps; an operation that
always raises a retryable error is invoked exactly `N` times, sleeps `N - 1`
times, and the error of the last invocation propagates. -/
theorem retry_termination {ε α : Type} (N : Nat) (hN : 1 ≤ N) :
    (∀ (f : Nat → Except ε α) (retryable : ε → Bool) (a : α) (errs : Nat → ε),
      (∀ i, i < N - 1 → f i = .error (errs i)) →
      (∀ i, i < N - 1 → retryable (errs i) = true) →
      f (N - 1) = .ok a →
      retry f retryable N = ⟨.ok a, N, N - 1⟩) ∧
    (∀ (g : Nat → Except ε α) (retryable : ε → Bool) (errs : Nat → ε),
      (∀ i, g i = .error (errs i)) →
      (∀ i, retryable (errs i) = true) →
      retry g retryable N = ⟨.error (errs (N - 1)), N, N - 1⟩) := by
  obtain ⟨k, rfl⟩ : ∃ k, N = k + 1 := ⟨N - 1, by omega⟩
  have hk : k + 1 - 1 = k := by omega
  constructor
  · intro f retryable a errs hfail hretry hok
    rw [hk] at hfail hretry hok ⊢
    have := retryGo_ok f retryable a errs k 0
      (by simpa using hfail) (by simpa using hretry) (by simpa using hok)
    simpa [retry] using this
  · intro g retryable errs hfail hretry
    rw [hk]
    have := retryGo_allfail g retryable errs hfail hretry k 0
    simpa [retry] using this

/-- Witness for C4: three tries, two retryable failures then success; and
three tries, all failing. -/
theorem retry_termination_witness :
    retry wRetryOp (fun _ => true) 3 = ⟨.ok 42, 3, 2⟩ ∧
    retry wRetryFailOp (fun _ => true) 3 = ⟨.error 2, 3, 2⟩ := by
  have h := retry_termination (ε := Nat) (α := Nat) 3 (by decide)
  constructor
  · exact h.1 wRetryOp (fun _ => true) 42 (fun i => i)
      (by intro i hi; interval_cases i <;> rfl)
      (by intro i _; rfl) rfl
  · exact h.2 wRetryFailOp (fun _ => true) (fun i => i)
      (fun _ => rfl) (fun _ => rfl)

/-- C5: an error whose kind is not in the retryable set propagates from the
first invocation: one call, no sleep, whatever the configured `tries`. -/
theorem retry_nonretryable_short_circuit {ε α : Type} (tries : Nat)
    (f : Nat → Except ε α) (retryable : ε → Bool) (e : ε)
    (h0 : f 0 = .error e) (hnr : retryable e = false) :
    retry f retryable tries = ⟨.error e, 1, 0⟩ := by
  match tries with
  | 0 => simp [retry, retryGo, h0]
  | 1 => simp [retry, retryGo, h0]
  | n + 2 => simp [retry, retryGo, h0, hnr]

/-- Witness for C5: a non-retryable error with five configured tries. -/
theorem retry_nonretryable_short_circuit_witness :
    wRetryFailOp 0 = .error 0 ∧
    retry wRetryFailOp (fun _ => false) 5 = ⟨.error 0, 1, 0⟩ :=
  ⟨rfl, retry_nonretryable_short_circuit 5 wRetryFailOp (fun _ => false) 0 rfl rfl⟩

/-! ## Error classification (C9) -/

/-- Counterexample to C9: a 429 response without a `Retry-After` header (or
with an unparsable one) is classified as a rate-limit error whose
`retry_after` is `None` — not the claimed 1 second. -/
theorem rate_limit_no_default_counterexample :
    handle_error_response ⟨429, none⟩ =
      .rateLimitError "Rate limit exceeded: Too many requests" none 429 ∧
    (handle_error_response ⟨429, none⟩).rateLimitRetryAfter ≠ some 1 ∧
    (handle_error_response ⟨429, some none⟩).rateLimitRetryAfter ≠ some 1 := by
  decide

/-- C9 (amended): every 429 response raises a rate-limit error whose
`retry_after` is the integer parsed from the `Retry-After` header, and is
`None` (no default) when the header is absent or unparsable. -/
theorem rate_limit_retry_after (response : ApiResponse)
    (h : response.status_code = 429) :
    handle_error_response response =
      .rateLimitError "Rate limit exceeded: Too many requests"
        (match response.retryAfterHeader with
         | some (some n) => some n
         | _ => none) 429 := by
  cases response with
  | mk sc hdr =>
    simp only at h
    subst h
    rfl

/-- Witness for C9: a 429 with `Retry-After: 60`. -/
theorem rate_limit_retry_after_witness :
    (⟨429, some (some 60)⟩ : ApiResponse).status_code = 429 ∧
    handle_error_response ⟨429, some (some 60)⟩ =
      .rateLimitError "Rate limit exceeded: Too many requests" (some 60) 429 :=
  ⟨rfl, rate_limit_retry_after ⟨429, some (some 60)⟩ rfl⟩

/-! ## Balance-history frame property of `process_account` (C10) -/

/-- C10: on the update path of `process_account` (an account with the given
external id and user already exists) no balance-history row is written or
changed: the code assigns `account.balance = balance` before comparing
`account.balance != balance`, so the comparison is between the new balance
and itself and the history branch never runs. -/
theorem process_account_update_no_history (db : DB) (user_id : Nat)
    (account_data : AccountPayload) (a : Account)
    (hid : strTruthy account_data.id = true)
    (hfound : db.accounts.find?
      (fun a => a.external_id == some (account_data.id.getD "") &&
                a.user_id == user_id) = some a) :
    (process_account db user_id account_data).1.history = db.history ∧
    (process_account db user_id account_data).2 = some "updated" := by
  unfold process_account
  rw [hid]
  simp only [Bool.not_true, Bool.false_eq_true, if_false, hfound]
  simp

/-- Witness for C10: re-syncing `wAccount` with a different balance leaves the
(empty) history table empty. -/
theorem process_account_update_no_history_witness :
    strTruthy wAccountPayload.id = true ∧
    wdb.accounts.find?
      (fun a => a.external_id == some (wAccountPayload.id.getD "") &&
                a.user_id == 1) = some wAccount ∧
    ((process_account wdb 1 wAccountPayload).1.history = wdb.history ∧
     (process_account wdb 1 wAccountPayload).2 = some "updated") :=
  ⟨by decide, by decide,
   process_account_update_no_history wdb 1 wAccountPayload wAccount
     (by decide) (by decide)⟩

/-! ## Webhook signature verification (C6) -/

/-- C6: `verify_webhook_signature` returns true exactly when a secret and a
signature are present and the signature equals the HMAC-SHA256 hex digest of
the raw body under the secret — so any change to body, signature or secret
that breaks that equality yields false — and it returns false (it is a total
function, never an exception) whenever the secret or the signature is
absent. -/
theorem verify_signature_iff (request_data : List Nat)
    (signature webhook_secret : Option String) :
    (verify_webhook_signature request_data signature webhook_secret = true ↔
      (strTruthy webhook_secret = true ∧ strTruthy signature = true ∧
       hmacSha256Hex (webhook_secret.getD "") request_data =
         signature.getD "")) ∧
    verify_webhook_signature request_data none webhook_secret = false ∧
    verify_webhook_signature request_data signature none = false := by
  refine ⟨?_, ?_, ?_⟩
  · unfold verify_webhook_signature
    cases hsec : strTruthy webhook_secret <;>
      cases hsig : strTruthy signature <;>
        simp [hsec, hsig]
  · unfold verify_webhook_signature
    simp [strTruthy]
  · unfold verify_webhook_signature
    simp [strTruthy]

/-! ## List and store helper lemmas -/

/-- `updateFirst` preserves length. -/
theorem updateFirst_length (p : α → Bool) (f : α → α) :
    ∀ l : List α, (updateFirst p f l).length = l.length := by
  intro l
  induction l with
  | nil => rfl
  | cons x xs ih =>
    by_cases hx : p x = true <;> simp [updateFirst, hx, ih]

/-- `updateFirst` is invisible to any projection the update preserves. -/
theorem updateFirst_map (p : α → Bool) (f : α → α) (g : α → β)
    (hf : ∀ a, p a = true → g (f a) = g a) :
    ∀ l : List α, (updateFirst p f l).map g = l.map g := by
  intro l
  induction l with
  | nil => rfl
  | cons x xs ih =>
    by_cases hx : p x = true
    · simp [updateFirst, hx, hf x hx]
    · simp [updateFirst, hx, ih]

/-- `updateFirst` preserves the length of any filter the update respects. -/
theorem updateFirst_filter_length (p q : α → Bool) (f : α → α)
    (hq : ∀ a, p a = true → q (f a) = q a) :
    ∀ l : List α, ((updateFirst p f l).filter q).length = (l.filter q).length := by
  intro l
  induction l with
  | nil => rfl
  | cons x xs ih =>
    by_cases hx : p x = true
    · by_cases hqx : q x = true <;>
        simp [updateFirst, hx, List.filter_cons, hq x hx, hqx]
    · by_cases hqx : q x = true <;>
        simp [updateFirst, hx, List.filter_cons, hqx, ih]

/-- Searching again after updating the first hit finds the updated element,
provided the update keeps the predicate. -/
theorem find?_updateFirst (p : α → Bool) (f : α → α)
    (hp : ∀ a, p a = true → p (f a) = true) :
    ∀ (l : List α) (a : α), l.find? p = some a →
      (updateFirst p f l).find? p = some (f a) := by
  intro l
  induction l with
  | nil => intro a h; simp at h
  | cons x xs ih =>
    intro a h
    cases hx : p x with
    | true =>
      simp only [List.find?_cons, hx] at h
      cases h
      simp only [updateFirst, hx, if_true, List.find?_cons, hp x hx]
    | false =>
      simp only [List.find?_cons, hx] at h
      simp only [updateFirst, hx, Bool.false_eq_true, if_false,
        List.find?_cons]
      exact ih a h

/-- `find?` skips a prefix on which it fails. -/
theorem find?_append_none (p : α → Bool) :
    ∀ (l₁ l₂ : List α), l₁.find? p = none →
      (l₁ ++ l₂).find? p = l₂.find? p := by
  intro l₁ l₂ h
  simp [List.find?_append, h]

/-- Account lookup by `(external_id, user_id)` projected to the primary key
only depends on the identifying columns of the account list. -/
theorem find?_account_key_map_id (ext : String) (u : Nat) :
    ∀ (l l' : List Account),
      l.map (fun a => (a.id, a.external_id, a.user_id)) =
        l'.map (fun a => (a.id, a.external_id, a.user_id)) →
      ((l.find? fun a => a.external_id == some ext && a.user_id == u).map (·.id)) =
        ((l'.find? fun a => a.external_id == some ext && a.user_id == u).map (·.id)) := by
  intro l
  induction l with
  | nil =>
    intro l' h
    have : l' = [] := by
      cases l' with
      | nil => rfl
      | cons y ys => simp at h
    subst this
    rfl
  | cons x xs ih =>
    intro l' h
    cases l' with
    | nil => simp at h
    | cons y ys =>
      simp only [List.map_cons, List.cons.injEq, Prod.mk.injEq] at h
      obtain ⟨⟨hidq, hext, huser⟩, htl⟩ := h
      cases hx : (x.external_id == some ext && x.user_id == u) with
      | true =>
        have hy : (y.external_id == some ext && y.user_id == u) = true := by
          rw [← hext, ← huser]; exact hx
        simp only [List.find?_cons, hx, hy, Option.map_some]
        simp [hidq]
      | false =>
        have hy : (y.external_id == some ext && y.user_id == u) = false := by
          rw [← hext, ← huser]; exact hx
        simp only [List.find?_cons, hx, hy]
        exact ih ys htl

/-- `resolveAccountId` only reads the identifying columns. -/
theorem resolveAccountId_congr (db db' : DB) (u : Nat) (e : Option String)
    (h : accountKeys db' = accountKeys db) :
    resolveAccountId db' u e = resolveAccountId db u e := by
  cases e with
  | none => rfl
  | some ext =>
    simpa [resolveAccountId] using
      find?_account_key_map_id ext u db'.accounts db.accounts h

/-- `DB.EqExceptCategories` is reflexive. -/
theorem DB.EqExceptCategories.rfl (db : DB) : DB.EqExceptCategories db db :=
  ⟨by rfl, by rfl, by rfl, by rfl, by rfl, by rfl, by rfl, by rfl, by rfl⟩

/-- `getOrCreateCategory` touches only the category table. -/
theorem getOrCreateCategory_eqExcept (db : DB) (n : String) (u : Nat) :
    DB.EqExceptCategories db (getOrCreateCategory db n u).2 := by
  unfold getOrCreateCategory
  cases h : db.categories.find? (fun c => c.name == n && c.user_id == u) with
  | none => exact ⟨by rfl, by rfl, by rfl, by rfl, by rfl, by rfl, by rfl, by rfl, by rfl⟩
  | some c => exact DB.EqExceptCategories.rfl db

/-- The keyword loop touches only the category table. -/
theorem keywordSearchAux_eqExcept (db : DB) (u : Nat) (ldesc : String) :
    ∀ pats, DB.EqExceptCategories db (keywordSearchAux db u ldesc pats).2 := by
  intro pats
  induction pats with
  | nil => exact DB.EqExceptCategories.rfl db
  | cons hd rest ih =>
    obtain ⟨name, ps⟩ := hd
    by_cases hmatch : (ps.any fun pattern => strContains ldesc pattern) = true
    · simpa [keywordSearchAux, hmatch] using getOrCreateCategory_eqExcept db name u
    · simpa [keywordSearchAux, hmatch] using ih

/-- The categorization heuristic touches only the category table. -/
theorem suggest_eqExcept (db : DB) (description : String) (u : Option Nat) :
    DB.EqExceptCategories db
      (suggest_category_for_transaction db description u).2 := by
  cases u with
  | none =>
    simp only [suggest_category_for_transaction]
    exact DB.EqExceptCategories.rfl db
  | some uid =>
    simp only [suggest_category_for_transaction]
    cases h : similarCategorized db uid description with
    | some t =>
      simp only [h]
      exact DB.EqExceptCategories.rfl db
    | none =>
      simp only [h]
      exact keywordSearchAux_eqExcept db uid (strLower description) category_patterns

/-- The weekly recompute touches only the summary table and its counter. -/
theorem calculate_for_week_frame (db : DB) (u : Nat) (w : Int) :
    (calculate_for_week db u w).txs = db.txs ∧
    (calculate_for_week db u w).accounts = db.accounts ∧
    (calculate_for_week db u w).categories = db.categories ∧
    (calculate_for_week db u w).history = db.history ∧
    (calculate_for_week db u w).next_tx_id = db.next_tx_id ∧
    (calculate_for_week db u w).next_account_id = db.next_account_id ∧
    (calculate_for_week db u w).now = db.now ∧
    (calculate_for_week db u w).today = db.today := by
  cases h : db.summaries.find?
      (fun s => s.user_id == u && s.week_start_date == w) <;>
    simp [calculate_for_week, h]

/-! ## Categorization step 1 (C7) -/

/-- Folding `mostRecentStep` from a seed yields the seed or a list element,
of maximal `created_at` among both. -/
theorem foldl_mostRecentStep_spec :
    ∀ (l : List Transaction) (b t : Transaction),
      l.foldl mostRecentStep (some b) = some t →
      (t = b ∨ t ∈ l) ∧ b.created_at ≤ t.created_at ∧
        ∀ x ∈ l, x.created_at ≤ t.created_at := by
  intro l
  induction l with
  | nil =>
    intro b t h
    simp only [List.foldl_nil, Option.some.injEq] at h
    subst h
    exact ⟨Or.inl rfl, le_refl _, by simp⟩
  | cons x xs ih =>
    intro b t h
    rw [List.foldl_cons] at h
    by_cases hx : x.created_at > b.created_at
    · rw [show mostRecentStep (some b) x = some x by
        simp [mostRecentStep, hx]] at h
      obtain ⟨hmem, hxle, hall⟩ := ih x t h
      refine ⟨?_, ?_, ?_⟩
      · rcases hmem with h1 | h1
        · exact Or.inr (by simp [h1])
        · exact Or.inr (by simp [h1])
      · exact le_trans (le_of_lt hx) hxle
      · intro y hy
        rcases List.mem_cons.mp hy with rfl | hy
        · exact hxle
        · exact hall y hy
    · rw [show mostRecentStep (some b) x = some b by
        simp [mostRecentStep, hx]] at h
      obtain ⟨hmem, hble, hall⟩ := ih b t h
      refine ⟨?_, hble, ?_⟩
      · rcases hmem with h1 | h1
        · exact Or.inl h1
        · exact Or.inr (by simp [h1])
      · intro y hy
        rcases List.mem_cons.mp hy with rfl | hy
        · exact le_trans (le_of_not_lt hx) hble
        · exact hall y hy

/-- `mostRecent` returns a member of maximal `created_at`. -/
theorem mostRecent_spec (l : List Transaction) (t : Transaction)
    (h : mostRecent l = some t) :
    t ∈ l ∧ ∀ x ∈ l, x.created_at ≤ t.created_at := by
  cases l with
  | nil => simp [mostRecent] at h
  | cons x xs =>
    have h' : xs.foldl mostRecentStep (some x) = some t := by
      simpa [mostRecent, mostRecentStep] using h
    obtain ⟨hmem, hxle, hall⟩ := foldl_mostRecentStep_spec xs x t h'
    refine ⟨?_, ?_⟩
    · rcases hmem with h1 | h1
      · simp [h1]
      · simp [h1]
    · intro y hy
      rcases List.mem_cons.mp hy with rfl | hy
      · exact hxle
      · exact hall y hy

/-- Counterexample to C7: the user has a categorized transaction
(`"Coffee Amore"`, category 5) whose description is contained in the incoming
description `"Coffee Amore Sydney"` — the claimed bidirectional containment
holds — yet step 1 of the heuristic selects nothing (its `ILIKE` test only
checks that the stored description contains the new one), and the heuristic
falls through to the keyword table, creating and returning a fresh category 7
instead of reusing category 5. -/
theorem similar_step_not_bidirectional :
    (wdbCoffee.txs.any fun t2 =>
      t2.user_id == 1 && t2.category_id.isSome &&
      (strContains (strLower t2.description) "coffee amore sydney" ||
       strContains "coffee amore sydney" (strLower t2.description))) = true ∧
    similarCategorized wdbCoffee 1 "Coffee Amore Sydney" = none ∧
    (suggest_category_for_transaction wdbCoffee "Coffee Amore Sydney"
      (some 1)).1 = some 7 := by
  decide

/-- C7 (amended): step 1 of the categorization heuristic selects the most
recently created already-categorized transaction of the user whose
description contains the new description case-insensitively — one direction
only — and the heuristic returns that transaction's category. -/
theorem similar_step_most_recent_one_direction (db : DB) (uid : Nat)
    (description : String) (t : Transaction)
    (h : similarCategorized db uid description = some t) :
    t ∈ db.txs ∧ t.user_id = uid ∧ t.category_id.isSome = true ∧
    strContains (strLower t.description) (strLower description) = true ∧
    (∀ t2 ∈ db.txs, t2.user_id = uid → t2.category_id.isSome = true →
      strContains (strLower t2.description) (strLower description) = true →
      t2.created_at ≤ t.created_at) ∧
    (suggest_category_for_transaction db description (some uid)).1 =
      t.category_id := by
  obtain ⟨hmem, hmax⟩ := mostRecent_spec _ t h
  have hmem' := List.mem_filter.mp hmem
  have hprops := hmem'.2
  simp only [Bool.and_eq_true, beq_iff_eq] at hprops
  refine ⟨hmem'.1, hprops.1.1, hprops.1.2, hprops.2, ?_, ?_⟩
  · intro t2 ht2 hu hc hs
    exact hmax t2 (List.mem_filter.mpr (by simp [ht2, hu, hc, hs]))
  · simp only [suggest_category_for_transaction, h]

/-- Witness for C7 (amended): the incoming description `"Amore"` is contained
in the stored `"Coffee Amore"`, so step 1 selects it and its category is
reused. -/
theorem similar_step_most_recent_one_direction_witness :
    similarCategorized wdbCoffee 1 "Amore" = some wCoffeeTx ∧
    (wCoffeeTx ∈ wdbCoffee.txs ∧ wCoffeeTx.user_id = 1 ∧
     wCoffeeTx.category_id.isSome = true ∧
     strContains (strLower wCoffeeTx.description) (strLower "Amore") = true ∧
     (∀ t2 ∈ wdbCoffee.txs, t2.user_id = 1 → t2.category_id.isSome = true →
       strContains (strLower t2.description) (strLower "Amore") = true →
       t2.created_at ≤ wCoffeeTx.created_at) ∧
     (suggest_category_for_transaction wdbCoffee "Amore" (some 1)).1 =
       wCoffeeTx.category_id) :=
  ⟨by decide,
   similar_step_most_recent_one_direction wdbCoffee 1 "Amore" wCoffeeTx
     (by decide)⟩

/-! ## Weekly summary convergence (C2) -/

/-- Lookup after the in-place increment of key `c` (a no-op when `c` is
absent, since the increment only runs under the presence guard). -/
theorem dictLookup_dictIncr (c : Nat) (amt : Rat) :
    ∀ (acc : List (Nat × Rat)) (k : Nat),
      dictLookup k (dictIncr c amt acc) =
        if c = k then (dictLookup k acc).map (· + amt)
        else dictLookup k acc := by
  intro acc
  induction acc with
  | nil =>
    intro k
    by_cases h : c = k <;> simp [dictIncr, dictLookup, h]
  | cons p rest ih =>
    intro k
    obtain ⟨a, v⟩ := p
    by_cases hac : a = c
    · subst hac
      rw [show dictIncr a amt ((a, v) :: rest) = (a, v + amt) :: rest from by
        simp [dictIncr]]
      by_cases hk : a = k
      · subst hk
        simp [dictLookup]
      · simp [dictLookup, hk]
    · rw [show dictIncr c amt ((a, v) :: rest) = (a, v) :: dictIncr c amt rest
        from by simp [dictIncr, hac]]
      by_cases hk : a = k
      · have hck : ¬ c = k := fun h => hac (hk.trans h.symm)
        simp [dictLookup, hk, hck]
      · simp [dictLookup, hk, ih]

/-- Lookup after appending a fresh key at the end. -/
theorem dictLookup_append_single (c : Nat) (amt : Rat) :
    ∀ (acc : List (Nat × Rat)) (k : Nat),
      dictLookup k (acc ++ [(c, amt)]) =
        match dictLookup k acc with
        | some v => some v
        | none => if c = k then some amt else none := by
  intro acc
  induction acc with
  | nil =>
    intro k
    by_cases h : c = k <;> simp [dictLookup, h]
  | cons p rest ih =>
    intro k
    obtain ⟨a, v⟩ := p
    by_cases hk : a = k
    · subst hk
      simp [dictLookup]
    · simp [dictLookup, hk, ih]

/-- `catSum` over a cons. -/
theorem catSum_cons (k : Nat) (t : Transaction) (rest : List Transaction) :
    catSum k (t :: rest) =
      if t.category_id = some k then t.amount + catSum k rest
      else catSum k rest := by
  by_cases h : t.category_id = some k <;>
    simp [catSum, List.filter_cons, h]

/-- Characterization of the dict built by the `category_totals` loop: a key is
present exactly when some transaction carries it, and then holds the sum of
the amounts carried by it (plus whatever the accumulator already held). -/
theorem lookup_foldl_catStep :
    ∀ (transactions : List Transaction) (acc : List (Nat × Rat)) (k : Nat),
      dictLookup k (transactions.foldl catTotalsStep acc) =
        match dictLookup k acc with
        | some v => some (v + catSum k transactions)
        | none =>
          if transactions.any (fun t => decide (t.category_id = some k)) then
            some (catSum k transactions)
          else none := by
  intro transactions
  induction transactions with
  | nil =>
    intro acc k
    cases h : dictLookup k acc <;> simp [h, catSum]
  | cons t rest ih =>
    intro acc k
    rw [List.foldl_cons, ih (catTotalsStep acc t) k, catSum_cons,
      List.any_cons]
    cases hc : t.category_id with
    | none =>
      rw [show catTotalsStep acc t = acc from by simp [catTotalsStep, hc]]
      cases hacc : dictLookup k acc <;> simp [hacc]
    | some c =>
      simp only [catTotalsStep, hc]
      by_cases hck : c = k
      · subst hck
        cases hl : dictLookup c acc with
        | some v =>
          rw [if_pos (by simp [hl]), dictLookup_dictIncr c t.amount acc c,
            if_pos rfl, hl]
          simp [add_assoc]
        | none =>
          rw [if_neg (by simp [hl]),
            dictLookup_append_single c t.amount acc c, hl]
          simp
      · have hck' : ¬ (some c = some k) := by simp [hck]
        have hstep :
            dictLookup k
              (if (dictLookup c acc).isSome = true then dictIncr c t.amount acc
               else acc ++ [(c, t.amount)]) = dictLookup k acc := by
          by_cases hl : (dictLookup c acc).isSome = true
          · rw [if_pos hl, dictLookup_dictIncr c t.amount acc k, if_neg hck]
          · rw [if_neg hl, dictLookup_append_single c t.amount acc k]
            cases h2 : dictLookup k acc with
            | some v => rfl
            | none => rw [if_neg hck]
        rw [hstep]
        cases hacc : dictLookup k acc <;> simp [hacc, hck']

/-- `List.any` only depends on membership, hence is permutation-invariant. -/
theorem any_perm {l₁ l₂ : List α} (h : l₁.Perm l₂) (p : α → Bool) :
    l₁.any p = l₂.any p := by
  cases h1 : l₁.any p with
  | true =>
    obtain ⟨x, hx, hp⟩ := List.any_eq_true.mp h1
    exact (List.any_eq_true.mpr ⟨x, h.mem_iff.mp hx, hp⟩).symm
  | false =>
    cases h2 : l₂.any p with
    | false => rfl
    | true =>
      obtain ⟨x, hx, hp⟩ := List.any_eq_true.mp h2
      have := List.any_eq_true.mpr ⟨x, h.mem_iff.mpr hx, hp⟩
      rw [h1] at this
      exact this ▸ rfl

/-- `catSum` is permutation-invariant. -/
theorem catSum_perm {l₁ l₂ : List Transaction} (h : l₁.Perm l₂) (k : Nat) :
    catSum k l₁ = catSum k l₂ :=
  ((h.filter _).map _).sum_eq

/-- After `calculate_for_week`, the stored summary of `(u, w)` holds exactly
the totals recomputed from the week's transactions. -/
theorem calculate_for_week_content (db : DB) (u : Nat) (w : Int) :
    ∃ s, findSummary (calculate_for_week db u w) u w = some s ∧
      s.total_amount =
        ((db.txs.filter (txInWeek u w)).map (·.amount)).sum ∧
      s.total_expenses =
        (((db.txs.filter (txInWeek u w)).filter
          fun t => decide (t.amount < 0)).map (·.amount)).sum ∧
      s.total_income =
        (((db.txs.filter (txInWeek u w)).filter
          fun t => decide (t.amount > 0)).map (·.amount)).sum ∧
      s.total_extras =
        (((db.txs.filter (txInWeek u w)).filter
          fun t => t.is_extra).map (·.amount)).sum ∧
      s.category_totals = buildCategoryTotals (db.txs.filter (txInWeek u w)) := by
  cases hf : db.summaries.find?
      (fun s => s.user_id == u && s.week_start_date == w) with
  | none =>
    simp only [calculate_for_week, hf, findSummary]
    rw [find?_append_none _ _ _ hf]
    rw [List.find?_cons, show ((u == u && (w == w : Bool)) = true) from by simp]
    exact ⟨_, rfl, rfl, rfl, rfl, rfl, rfl⟩
  | some s0 =>
    simp only [calculate_for_week, hf, findSummary]
    exact ⟨_, find?_updateFirst
      (fun s => s.user_id == u && s.week_start_date == w)
      (fun s =>
        { s with
          total_amount := ((db.txs.filter (txInWeek u w)).map (·.amount)).sum,
          total_expenses := (((db.txs.filter (txInWeek u w)).filter
            fun t => decide (t.amount < 0)).map (·.amount)).sum,
          total_income := (((db.txs.filter (txInWeek u w)).filter
            fun t => decide (t.amount > 0)).map (·.amount)).sum,
          total_extras := (((db.txs.filter (txInWeek u w)).filter
            fun t => t.is_extra).map (·.amount)).sum,
          category_totals := buildCategoryTotals (db.txs.filter (txInWeek u w)),
          calculated_at := db.now })
      (fun a ha => ha) db.summaries s0 hf,
      rfl, rfl, rfl, rfl, rfl⟩

/-- After inserting a nonempty batch of same-week transactions one at a time,
each insert followed by the recompute, the stored summary holds the totals of
the full final transaction list of that week. -/
theorem foldl_syncStep_content (u : Nat) (w : Int) :
    ∀ (l : List Transaction) (db : DB), l ≠ [] →
      (∀ t ∈ l, t.user_id = u ∧ t.week_start_date = w) →
      ∃ s, findSummary (l.foldl syncStep db) u w = some s ∧
        s.total_amount =
          (((db.txs ++ l).filter (txInWeek u w)).map (·.amount)).sum ∧
        s.total_expenses =
          ((((db.txs ++ l).filter (txInWeek u w)).filter
            fun t => decide (t.amount < 0)).map (·.amount)).sum ∧
        s.total_income =
          ((((db.txs ++ l).filter (txInWeek u w)).filter
            fun t => decide (t.amount > 0)).map (·.amount)).sum ∧
        s.total_extras =
          ((((db.txs ++ l).filter (txInWeek u w)).filter
            fun t => t.is_extra).map (·.amount)).sum ∧
        s.category_totals =
          buildCategoryTotals ((db.txs ++ l).filter (txInWeek u w)) := by
  intro l
  induction l with
  | nil => intro db h; exact absurd rfl h
  | cons t rest ih =>
    intro db _ hweek
    have ht := hweek t (by simp)
    cases rest with
    | nil =>
      simp only [List.foldl_cons, List.foldl_nil]
      unfold syncStep
      rw [ht.1, ht.2]
      simpa using calculate_for_week_content
        { db with txs := db.txs ++ [t] } u w
    | cons t2 rest2 =>
      rw [List.foldl_cons]
      have hne : (t2 :: rest2) ≠ [] := by simp
      have hweek2 : ∀ x ∈ t2 :: rest2, x.user_id = u ∧ x.week_start_date = w := by
        intro x hx
        exact hweek x (by simp [hx])
      obtain ⟨s, hs, h1, h2, h3, h4, h5⟩ := ih (syncStep db t) hne hweek2
      have htxs : (syncStep db t).txs = db.txs ++ [t] := by
        unfold syncStep
        exact (calculate_for_week_frame _ _ _).1
      rw [htxs] at h1 h2 h3 h4 h5
      rw [List.append_assoc] at h1 h2 h3 h4 h5
      exact ⟨s, hs, h1, h2, h3, h4, h5⟩

/-- C2: inserting a batch of same-week transactions in any order, recomputing
the weekly summary after each insertion, converges: the final stored summary
fields (`total_amount`, `total_expenses`, `total_income`, `total_extras`,
`category_totals` as a map) do not depend on the insertion order, because the
recompute always reads the whole week and overwrites the row. -/
theorem weekly_summary_order_invariant (db : DB) (u : Nat) (w : Int)
    (l₁ l₂ : List Transaction) (hperm : l₁.Perm l₂)
    (hweek : ∀ t ∈ l₁, t.user_id = u ∧ t.week_start_date = w) :
    summaryFieldsAgree (findSummary (l₁.foldl syncStep db) u w)
      (findSummary (l₂.foldl syncStep db) u w) := by
  cases l₁ with
  | nil =>
    have : l₂ = [] := hperm.symm.eq_nil
    subst this
    simp only [List.foldl_nil]
    cases findSummary db u w with
    | none => trivial
    | some s => exact ⟨rfl, rfl, rfl, rfl, fun k => rfl⟩
  | cons t0 rest0 =>
    have hne₁ : (t0 :: rest0) ≠ [] := by simp
    have hne₂ : l₂ ≠ [] := by
      intro h
      subst h
      exact absurd hperm.eq_nil (by simp)
    have hweek₂ : ∀ t ∈ l₂, t.user_id = u ∧ t.week_start_date = w := by
      intro t ht
      exact hweek t (hperm.mem_iff.mpr ht)
    obtain ⟨s1, hs1, a1, b1, c1, d1, e1⟩ :=
      foldl_syncStep_content u w (t0 :: rest0) db hne₁ hweek
    obtain ⟨s2, hs2, a2, b2, c2, d2, e2⟩ :=
      foldl_syncStep_content u w l₂ db hne₂ hweek₂
    rw [hs1, hs2]
    have hp : ((db.txs ++ t0 :: rest0).filter (txInWeek u w)).Perm
        ((db.txs ++ l₂).filter (txInWeek u w)) :=
      (List.Perm.append_left db.txs hperm).filter _
    refine ⟨?_, ?_, ?_, ?_, ?_⟩
    · rw [a1, a2]; exact (hp.map _).sum_eq
    · rw [b1, b2]; exact ((hp.filter _).map _).sum_eq
    · rw [c1, c2]; exact ((hp.filter _).map _).sum_eq
    · rw [d1, d2]; exact ((hp.filter _).map _).sum_eq
    · intro k
      rw [e1, e2]
      unfold buildCategoryTotals
      rw [lookup_foldl_catStep _ [] k, lookup_foldl_catStep _ [] k]
      simp only [dictLookup]
      rw [any_perm hp, catSum_perm hp]

/-- Witness for C2: the two insertion orders of `wWeekTx1` and `wWeekTx2`
into week 7 agree on every summary field. -/
theorem weekly_summary_order_invariant_witness :
    ([wWeekTx1, wWeekTx2].Perm [wWeekTx2, wWeekTx1]) ∧
    summaryFieldsAgree
      (findSummary ([wWeekTx1, wWeekTx2].foldl syncStep wdb) 1 7)
      (findSummary ([wWeekTx2, wWeekTx1].foldl syncStep wdb) 1 7) :=
  ⟨by decide,
   weekly_summary_order_invariant wdb 1 7 [wWeekTx1, wWeekTx2]
     [wWeekTx2, wWeekTx1] (by decide) (by decide)⟩

/-! ## Shape of the reconciliation paths (C1, C3, C8) -/

/-- The date mapping only fails on a missing timestamp. -/
theorem mappedDate_isSome (a : TxAttributes) (today : Int)
    (h : a.createdAt ≠ RawTimestamp.missing) :
    ∃ d, mappedDate a today = some d := by
  cases hca : a.createdAt with
  | missing => exact absurd hca h
  | malformed => exact ⟨today, by simp [mappedDate, hca]⟩
  | value v => exact ⟨v, by simp [mappedDate, hca]⟩

/-- The create path of `process_up_bank_transaction`: when no transaction with
the record's `(external_id, user_id)` key exists, the call succeeds, appends
exactly one new row carrying the mapped fields and the next primary key, adds
the mapped amount to the balance of the resolved account (if any), and leaves
the clock and calendar unchanged. -/
theorem process_create_shape (db : DB) (p : TxPayload) (uid : Nat) (ext : String)
    (hid : p.id = some ext) (hext : ext ≠ "")
    (hdate : p.attributes.createdAt ≠ RawTimestamp.missing)
    (habsent : db.txs.find? (txKey ext uid) = none) :
    ∃ cat d, mappedDate p.attributes db.today = some d ∧
      (process_up_bank_transaction db p uid).2 = true ∧
      (process_up_bank_transaction db p uid).1.txs =
        db.txs ++ [{ id := db.next_tx_id, external_id := some ext, date := d,
                     description := mappedDescription p.attributes,
                     amount := mappedAmount p.attributes, is_extra := false,
                     source := .up_bank, category_id := cat, user_id := uid,
                     account_id := resolveAccountId db uid p.accountExt,
                     created_at := db.now, updated_at := db.now }] ∧
      (process_up_bank_transaction db p uid).1.accounts =
        (match resolveAccountId db uid p.accountExt with
         | some aid => updateFirst (fun a => a.id == aid)
             (fun a => { a with balance := a.balance + mappedAmount p.attributes,
                                updated_at := db.now }) db.accounts
         | none => db.accounts) ∧
      (process_up_bank_transaction db p uid).1.today = db.today ∧
      (process_up_bank_transaction db p uid).1.now = db.now := by
  obtain ⟨d, hd⟩ := mappedDate_isSome p.attributes db.today hdate
  have hid2 : strTruthy (some ext) = true := by simp [strTruthy, hext]
  obtain ⟨htxs, haccs, hsumm, hhist, hntx, hnacct, hnsumm, hnow, htoday⟩ :=
    suggest_eqExcept db (mappedDescription p.attributes) (some uid)
  refine ⟨(suggest_category_for_transaction db
    (mappedDescription p.attributes) (some uid)).1, d, hd, ?_, ?_, ?_, ?_, ?_⟩ <;>
    cases hres : resolveAccountId db uid p.accountExt <;>
      simp only [process_up_bank_transaction, hid, hid2, Option.getD_some,
        not_true, if_false, Bool.not_true, Bool.false_eq_true, hd, habsent,
        hres] <;>
      simp [calculate_for_week_frame, htxs, haccs, hntx, hnow, htoday, hres]

/-- The categorization block of the update path keeps the row findable at its
key, inserts nothing, and does not touch the four mapped fields. -/
theorem updateCategoryStep_shape (dbU : DB) (t1 : Transaction) (ext : String)
    (uid : Nat) (desc : String) (had : Bool)
    (hfound1 : dbU.txs.find? (txKey ext uid) = some t1) :
    (updateCategoryStep dbU t1 ext uid desc had).2.txs.find? (txKey ext uid) =
      some (updateCategoryStep dbU t1 ext uid desc had).1 ∧
    (updateCategoryStep dbU t1 ext uid desc had).2.txs.length =
      dbU.txs.length ∧
    ((updateCategoryStep dbU t1 ext uid desc had).2.txs.filter
      (txKey ext uid)).length = (dbU.txs.filter (txKey ext uid)).length ∧
    (updateCategoryStep dbU t1 ext uid desc had).1.description =
      t1.description ∧
    (updateCategoryStep dbU t1 ext uid desc had).1.amount = t1.amount ∧
    (updateCategoryStep dbU t1 ext uid desc had).1.date = t1.date ∧
    (updateCategoryStep dbU t1 ext uid desc had).1.account_id =
      t1.account_id ∧
    (updateCategoryStep dbU t1 ext uid desc had).1.week_start_date =
      t1.week_start_date := by
  cases had with
  | true =>
    simp only [updateCategoryStep, if_true]
    exact ⟨hfound1, by trivial, by trivial, by trivial, by trivial,
      by trivial, by trivial, by trivial⟩
  | false =>
    simp only [updateCategoryStep, Bool.false_eq_true, if_false]
    obtain ⟨htxs, _, _, _, _, _, _, _, _⟩ := suggest_eqExcept dbU desc (some uid)
    cases hr : (suggest_category_for_transaction dbU desc (some uid)).1 with
    | none =>
      simp only [hr]
      rw [htxs]
      exact ⟨hfound1, by trivial, by trivial, by trivial, by trivial,
        by trivial, by trivial, by trivial⟩
    | some cid =>
      simp only [hr]
      rw [htxs]
      refine ⟨?_, ?_, ?_, by trivial, by trivial, by trivial, by trivial,
        by trivial⟩
      · exact find?_updateFirst (txKey ext uid)
          (fun t => { t with category_id := some cid }) (fun a ha => ha)
          dbU.txs t1 hfound1
      · rw [updateFirst_length]
      · exact updateFirst_filter_length (txKey ext uid) (txKey ext uid)
          (fun t => { t with category_id := some cid }) (fun a _ => rfl)
          dbU.txs

/-- The update path of `process_up_bank_transaction`: when a transaction with
the record's `(external_id, user_id)` key exists, the call succeeds, inserts
no row (the table keeps its length, and the key matches exactly as many rows
as before), and the row at the key carries the mapped field values
(description, amount, date, account linkage). -/
theorem process_update_shape (db : DB) (p : TxPayload) (uid : Nat)
    (ext : String) (e : Transaction)
    (hid : p.id = some ext) (hext : ext ≠ "")
    (hdate : p.attributes.createdAt ≠ RawTimestamp.missing)
    (hfound : db.txs.find? (txKey ext uid) = some e) :
    (process_up_bank_transaction db p uid).2 = true ∧
    (process_up_bank_transaction db p uid).1.txs.length = db.txs.length ∧
    ((process_up_bank_transaction db p uid).1.txs.filter
      (txKey ext uid)).length = (db.txs.filter (txKey ext uid)).length ∧
    ∃ t, (process_up_bank_transaction db p uid).1.txs.find? (txKey ext uid) =
        some t ∧
      t.description = mappedDescription p.attributes ∧
      t.amount = mappedAmount p.attributes ∧
      mappedDate p.attributes db.today = some t.date ∧
      t.account_id = resolveAccountId db uid p.accountExt := by
  obtain ⟨d, hd⟩ := mappedDate_isSome p.attributes db.today hdate
  have hid2 : strTruthy (some ext) = true := by simp [strTruthy, hext]
  have hkey_e : txKey ext uid e = true := List.find?_some hfound
  simp only [process_up_bank_transaction, hid, hid2, Option.getD_some,
    not_true, if_false, Bool.not_true, Bool.false_eq_true, hd, hfound]
  set t1 : Transaction :=
    { e with description := mappedDescription p.attributes,
             amount := mappedAmount p.attributes, date := d,
             account_id := resolveAccountId db uid p.accountExt,
             updated_at := db.now } with ht1
  set dbU : DB :=
    { db with txs := updateFirst (txKey ext uid) (fun _ => t1) db.txs }
    with hdbU
  set step := updateCategoryStep dbU t1 ext uid
    (mappedDescription p.attributes) e.category_id.isSome with hstepdef
  have hfound1 : dbU.txs.find? (txKey ext uid) = some t1 := by
    rw [hdbU]
    exact find?_updateFirst (txKey ext uid) (fun _ => t1)
      (fun a _ => hkey_e) db.txs e hfound
  obtain ⟨sfind, slen, sfilter, sdesc, samt, sdate, sacct, _⟩ :=
    updateCategoryStep_shape dbU t1 ext uid (mappedDescription p.attributes)
      e.category_id.isSome hfound1
  rw [← hstepdef] at sfind slen sfilter sdesc samt sdate sacct
  have hlen : step.2.txs.length = db.txs.length := by
    rw [slen, hdbU]
    exact updateFirst_length _ _ db.txs
  have hfil : (step.2.txs.filter (txKey ext uid)).length =
      (db.txs.filter (txKey ext uid)).length := by
    rw [sfilter, hdbU]
    exact updateFirst_filter_length (txKey ext uid) (txKey ext uid)
      (fun _ => t1) (fun a ha => by rw [ha]; exact hkey_e) db.txs
  cases hsa : step.1.account_id with
  | none =>
    refine ⟨trivial, ?_, ?_, ?_⟩
    · rw [(calculate_for_week_frame _ _ _).1]
      exact hlen
    · rw [(calculate_for_week_frame _ _ _).1]
      exact hfil
    · rw [(calculate_for_week_frame _ _ _).1]
      exact ⟨step.1, sfind, by rw [sdesc, ht1], by rw [samt, ht1],
        by rw [sdate, ht1], by rw [sacct, ht1]⟩
  | some aid =>
    refine ⟨trivial, ?_, ?_, ?_⟩
    · rw [(calculate_for_week_frame _ _ _).1]
      exact hlen
    · rw [(calculate_for_week_frame _ _ _).1]
      exact hfil
    · rw [(calculate_for_week_frame _ _ _).1]
      exact ⟨step.1, sfind, by rw [sdesc, ht1], by rw [samt, ht1],
        by rw [sdate, ht1], by rw [sacct, ht1]⟩

/-! ## Missing vs. malformed creation timestamp (C8) -/

/-- Counterexample to C8: a record whose creation timestamp is absent is not
processed at all — `process_up_bank_transaction` logs and returns `False`,
leaving the store untouched — rather than being processed with the current
date. -/
theorem missing_timestamp_drops_record :
    process_up_bank_transaction wdb wPayloadNoDate 1 = (wdb, false) := by
  rfl

/-- C8 (amended): a record whose creation timestamp is present but unparsable
is still processed, its date defaulting to the current date; only a record
with no creation timestamp at all is dropped. -/
theorem malformed_timestamp_defaults_to_today (db : DB) (p : TxPayload)
    (uid : Nat) (ext : String)
    (hid : p.id = some ext) (hext : ext ≠ "")
    (hmal : p.attributes.createdAt = RawTimestamp.malformed)
    (habsent : db.txs.find? (txKey ext uid) = none) :
    (process_up_bank_transaction db p uid).2 = true ∧
    ∃ t, (process_up_bank_transaction db p uid).1.txs = db.txs ++ [t] ∧
      t.date = db.today := by
  have hdate : p.attributes.createdAt ≠ RawTimestamp.missing := by
    rw [hmal]
    intro h
    cases h
  obtain ⟨cat, d, hd, h2, h3, _, _, _⟩ :=
    process_create_shape db p uid ext hid hext hdate habsent
  have hdd : d = db.today := by
    rw [mappedDate, hmal] at hd
    exact (Option.some.inj hd).symm
  exact ⟨h2, ⟨_, h3, hdd⟩⟩

/-- Witness for C8 (amended): a record with an unparsable timestamp is
created with today's date. -/
theorem malformed_timestamp_defaults_to_today_witness :
    wPayloadBadDate.id = some "tx-ext-9" ∧
    wPayloadBadDate.attributes.createdAt = RawTimestamp.malformed ∧
    wdb.txs.find? (txKey "tx-ext-9" 1) = none ∧
    ((process_up_bank_transaction wdb wPayloadBadDate 1).2 = true ∧
     ∃ t, (process_up_bank_transaction wdb wPayloadBadDate 1).1.txs =
        wdb.txs ++ [t] ∧ t.date = wdb.today) :=
  ⟨rfl, rfl, rfl,
   malformed_timestamp_defaults_to_today wdb wPayloadBadDate 1 "tx-ext-9"
     rfl (by decide) rfl rfl⟩

/-! ## Idempotent upsert (C1) -/

/-- C1: reconciling an external-id record twice with an identical payload for
the same user stores exactly one transaction keyed on
`(external_id, user_id)`: the first call creates the row, the second call
succeeds without adding any row (the table keeps its length and the key still
matches exactly one row) and the stored row carries exactly the mapped field
values (description, amount, date, account linkage) of the payload. -/
theorem upsert_idempotent (db : DB) (p : TxPayload) (uid : Nat) (ext : String)
    (hid : p.id = some ext) (hext : ext ≠ "")
    (hdate : p.attributes.createdAt ≠ RawTimestamp.missing)
    (habsent : db.txs.find? (txKey ext uid) = none) :
    (process_up_bank_transaction db p uid).2 = true ∧
    ((process_up_bank_transaction db p uid).1.txs.filter
      (txKey ext uid)).length = 1 ∧
    (process_up_bank_transaction
      (process_up_bank_transaction db p uid).1 p uid).2 = true ∧
    (process_up_bank_transaction
      (process_up_bank_transaction db p uid).1 p uid).1.txs.length =
      (process_up_bank_transaction db p uid).1.txs.length ∧
    ((process_up_bank_transaction
      (process_up_bank_transaction db p uid).1 p uid).1.txs.filter
      (txKey ext uid)).length = 1 ∧
    ∃ t, (process_up_bank_transaction
        (process_up_bank_transaction db p uid).1 p uid).1.txs.find?
        (txKey ext uid) = some t ∧
      t.description = mappedDescription p.attributes ∧
      t.amount = mappedAmount p.attributes ∧
      mappedDate p.attributes db.today = some t.date ∧
      t.account_id = resolveAccountId db uid p.accountExt := by
  obtain ⟨cat, d, hd, h2, h3, h4, h5, h6⟩ :=
    process_create_shape db p uid ext hid hext hdate habsent
  have hkeyNew : txKey ext uid
      { id := db.next_tx_id, external_id := some ext, date := d,
        description := mappedDescription p.attributes,
        amount := mappedAmount p.attributes, is_extra := false,
        source := .up_bank, category_id := cat, user_id := uid,
        account_id := resolveAccountId db uid p.accountExt,
        created_at := db.now, updated_at := db.now } = true := by
    simp [txKey]
  have hfilter1 : ((process_up_bank_transaction db p uid).1.txs.filter
      (txKey ext uid)).length = 1 := by
    rw [h3, List.filter_append,
      List.filter_eq_nil_iff.mpr (fun x hx => by
        simpa using List.find?_eq_none.mp habsent x hx)]
    simp [hkeyNew]
  have hfound2 : (process_up_bank_transaction db p uid).1.txs.find?
      (txKey ext uid) = some
      { id := db.next_tx_id, external_id := some ext, date := d,
        description := mappedDescription p.attributes,
        amount := mappedAmount p.attributes, is_extra := false,
        source := .up_bank, category_id := cat, user_id := uid,
        account_id := resolveAccountId db uid p.accountExt,
        created_at := db.now, updated_at := db.now } := by
    rw [h3, find?_append_none _ _ _ habsent]
    simp [List.find?_cons, hkeyNew]
  obtain ⟨u2, ulen, ufil, t, hft, htd, hta, htdt, htacc⟩ :=
    process_update_shape (process_up_bank_transaction db p uid).1 p uid ext _
      hid hext hdate hfound2
  have hkeys : accountKeys (process_up_bank_transaction db p uid).1 =
      accountKeys db := by
    unfold accountKeys
    rw [h4]
    cases hres : resolveAccountId db uid p.accountExt with
    | none => rfl
    | some aid =>
      exact updateFirst_map (fun a => a.id == aid)
        (fun a => { a with balance := a.balance + mappedAmount p.attributes,
                           updated_at := db.now })
        (fun a => (a.id, a.external_id, a.user_id)) (fun a _ => rfl)
        db.accounts
  refine ⟨h2, hfilter1, u2, ulen, ?_, t, hft, htd, hta, ?_, ?_⟩
  · rw [ufil, hfilter1]
  · rw [h5] at htdt
    exact htdt
  · rw [htacc,
      resolveAccountId_congr db (process_up_bank_transaction db p uid).1 uid
        p.accountExt hkeys]

/-- Witness for C1: reconciling `wPayload` twice into `wdb`. -/
theorem upsert_idempotent_witness :
    wPayload.id = some "tx-ext-1" ∧
    wdb.txs.find? (txKey "tx-ext-1" 1) = none ∧
    ((process_up_bank_transaction wdb wPayload 1).2 = true ∧
     ((process_up_bank_transaction wdb wPayload 1).1.txs.filter
       (txKey "tx-ext-1" 1)).length = 1 ∧
     (process_up_bank_transaction
       (process_up_bank_transaction wdb wPayload 1).1 wPayload 1).2 = true ∧
     (process_up_bank_transaction
       (process_up_bank_transaction wdb wPayload 1).1 wPayload 1).1.txs.length =
       (process_up_bank_transaction wdb wPayload 1).1.txs.length ∧
     ((process_up_bank_transaction
       (process_up_bank_transaction wdb wPayload 1).1 wPayload 1).1.txs.filter
       (txKey "tx-ext-1" 1)).length = 1 ∧
     ∃ t, (process_up_bank_transaction
         (process_up_bank_transaction wdb wPayload 1).1 wPayload 1).1.txs.find?
         (txKey "tx-ext-1" 1) = some t ∧
       t.description = mappedDescription wPayload.attributes ∧
       t.amount = mappedAmount wPayload.attributes ∧
       mappedDate wPayload.attributes wdb.today = some t.date ∧
       t.account_id = resolveAccountId wdb 1 wPayload.accountExt) :=
  ⟨rfl, rfl,
   upsert_idempotent wdb wPayload 1 "tx-ext-1" rfl (by decide) (by decide) rfl⟩

/-! ## Create-then-delete balance round trip (C3) -/

/-- Adding an amount to the first matching account and then subtracting the
same amount restores every `(id, balance)` pair. -/
theorem updateFirst_balance_roundtrip (aid : Nat) (amt : Rat) (n1 n2 : Nat) :
    ∀ l : List Account,
      (updateFirst (fun a => a.id == aid)
        (fun a => { a with balance := a.balance - amt, updated_at := n2 })
        (updateFirst (fun a => a.id == aid)
          (fun a => { a with balance := a.balance + amt, updated_at := n1 })
          l)).map (fun a => (a.id, a.balance)) =
      l.map (fun a => (a.id, a.balance)) := by
  intro l
  induction l with
  | nil => rfl
  | cons x xs ih =>
    cases hx : (x.id == aid) with
    | true => simp [updateFirst, hx]
    | false => simp [updateFirst, hx, ih]

/-- C3: creating a transaction of any amount linked to an account via the
reconciliation create path and then deleting it leaves every account balance
exactly as before: the create path adds the amount, the delete path subtracts
the same amount. -/
theorem delete_reverses_balance (db : DB) (p : TxPayload) (uid : Nat)
    (ext : String) (aid : Nat)
    (hid : p.id = some ext) (hext : ext ≠ "")
    (hdate : p.attributes.createdAt ≠ RawTimestamp.missing)
    (habsent : db.txs.find? (txKey ext uid) = none)
    (hacct : resolveAccountId db uid p.accountExt = some aid)
    (hfresh : ∀ t ∈ db.txs, t.id ≠ db.next_tx_id) :
    (delete_transaction (process_up_bank_transaction db p uid).1
      db.next_tx_id uid).2 = true ∧
    accountBalances (delete_transaction (process_up_bank_transaction db p uid).1
      db.next_tx_id uid).1 = accountBalances db := by
  obtain ⟨cat, d, hd, h2, h3, h4, h5, h6⟩ :=
    process_create_shape db p uid ext hid hext hdate habsent
  rw [hacct] at h3 h4
  have hdel_find : (process_up_bank_transaction db p uid).1.txs.find?
      (fun t => t.id == db.next_tx_id && t.user_id == uid) = some
      { id := db.next_tx_id, external_id := some ext, date := d,
        description := mappedDescription p.attributes,
        amount := mappedAmount p.attributes, is_extra := false,
        source := .up_bank, category_id := cat, user_id := uid,
        account_id := some aid,
        created_at := db.now, updated_at := db.now } := by
    rw [h3, find?_append_none _ _ _ (List.find?_eq_none.mpr
      (fun x hx => by simp [hfresh x hx]))]
    simp [List.find?_cons]
  simp only [delete_transaction, hdel_find]
  refine ⟨by trivial, ?_⟩
  unfold accountBalances
  rw [(calculate_for_week_frame _ _ _).2.1]
  rw [h4]
  exact updateFirst_balance_roundtrip aid (mappedAmount p.attributes) db.now
    (process_up_bank_transaction db p uid).1.now db.accounts

/-- Witness for C3: create `wPayload` (amount `-85/2`) against `wAccount`,
then delete it; the balance table is unchanged. -/
theorem delete_reverses_balance_witness :
    resolveAccountId wdb 1 wPayload.accountExt = some 1 ∧
    (∀ t ∈ wdb.txs, t.id ≠ wdb.next_tx_id) ∧
    ((delete_transaction (process_up_bank_transaction wdb wPayload 1).1
       wdb.next_tx_id 1).2 = true ∧
     accountBalances (delete_transaction
       (process_up_bank_transaction wdb wPayload 1).1 wdb.next_tx_id 1).1 =
       accountBalances wdb) :=
  ⟨by decide, by decide,
   delete_reverses_balance wdb wPayload 1 "tx-ext-1" 1 rfl (by decide)
     (by decide) rfl (by decide) (by decide)⟩

end Bupget
